import Mathlib

/-!
Verification of the mem_mgr allocator (dustinfast/mem_mgr).

Shallow embedding of the allocator in src/implementation.c (the full
iteration at lines 183-706 of that file, which the claims cite), of the
earlier coalesce routine in src/memlib.c, and of the realloc copy-length
computation in src/unnamed/part_000.

Modelling conventions
  * The target is LP64: sizeof(size_t) = sizeof(void*) = 8, so
    sizeof(BlockHead) = 32 and sizeof(HeapHead) = 24.  size_t values are
    Nat; an explicit `% SIZE_MOD` (or `sub64`) is used exactly where the C
    computation can wrap (do_malloc's size += BLOCK_HEAD_SZ,
    sizet_multiply's product, block_chunk's subtractions).  Pointer values
    are Nat addresses; NULL is address 0.
  * A memory block is represented by its header contents: base address,
    data_addr field and size field (the next/prev links are represented by
    the position of the block in the free-list chain).  The free list is
    the chain of blocks reachable from g_heap->first_free via next; the
    prev pointers are assumed consistent with that chain, as the code
    maintains them.
  * mmap results are oracle parameters (`Option Nat`: none = MAP_FAILED,
    an address otherwise).  Bytes of memory are modelled as `Nat → Nat`
    where mem_set / mem_cpy write.
-/

namespace MemMgr

/-- 2^64, the modulus of size_t arithmetic on the LP64 target. -/
def SIZE_MOD : Nat := 18446744073709551616

/-- sizeof(BlockHead): size_t + char* + two pointers = 32 bytes (LP64). -/
def BLOCK_HEAD_SZ : Nat := 32

/-- sizeof(HeapHead): size_t + char* + pointer = 24 bytes (LP64). -/
def HEAP_HEAD_SZ : Nat := 24

/-- MIN_BLOCK_SZ = BLOCK_HEAD_SZ + 1. -/
def MIN_BLOCK_SZ : Nat := BLOCK_HEAD_SZ + 1

/-- START_HEAP_SZ = 16 * 1048576 (16 MiB). -/
def START_HEAP_SZ : Nat := 16 * 1048576

/-- size_t subtraction: (a - b) mod 2^64, for a, b < 2^64. -/
def sub64 (a b : Nat) : Nat := (a + (SIZE_MOD - b % SIZE_MOD)) % SIZE_MOD

/-- Header of a memory block (struct BlockHead): the block's base address,
its data_addr field, and its size field (block size including header).
next/prev are represented by list position in the free-list chain. -/
structure BlockHead where
  addr : Nat
  data_addr : Nat
  size : Nat
  deriving DecidableEq, Repr

/-- The heap header (struct HeapHead): total heap size, start address, and
the free list (the next-chain from first_free; [] is first_free == NULL). -/
structure HeapHead where
  size : Nat
  start_addr : Nat
  first_free : List BlockHead
  deriving DecidableEq, Repr

/-- sizet_multiply (implementation.c): returns a*b unless a == 0, b == 0 or
the size_t product overflows, in which case it returns 0.  The product t is
computed modulo 2^64 exactly as in C; overflow is detected from the
Euclidean division of t by a. -/
def sizet_multiply (a b : Nat) : Nat :=
  if a = 0 ∨ b = 0 then 0
  else
    let t := (a * b) % SIZE_MOD
    let q := t / a
    let remnder := t % a
    if remnder ≠ 0 ∨ q ≠ b then 0
    else t

/-- mem_set (implementation.c): fills the n bytes starting at s with c,
one byte per loop iteration. -/
def mem_set : (Nat → Nat) → Nat → Nat → Nat → (Nat → Nat)
  | mem, _, _, 0 => mem
  | mem, s, c, n + 1 =>
      mem_set (fun a => if a = s then c else mem a) (s + 1) c n

/-- mem_cpy (implementation.c): copies n bytes from src to dest, one byte
per loop iteration (areas must not overlap). -/
def mem_cpy : (Nat → Nat) → Nat → Nat → Nat → (Nat → Nat)
  | mem, _, _, 0 => mem
  | mem, dest, src, n + 1 =>
      mem_cpy (fun a => if a = dest then mem src else mem a) (dest + 1) (src + 1) n

/-- One step structure of heap_squeeze (implementation.c): the while loop
walks curr through the chain; whenever curr's end address equals the next
block's base, the successor is folded into curr (curr->size +=
curr->next->size; curr->next = curr->next->next) and the loop continues at
curr, otherwise curr advances.  `fuel` bounds the iteration count; each
step removes one element from consideration, so fuel = list length always
suffices and the fuel-0 branch is unreachable from heap_squeeze. -/
def squeezeFuel : Nat → List BlockHead → List BlockHead
  | 0, l => l
  | _ + 1, [] => []
  | _ + 1, [b] => [b]
  | fuel + 1, b :: c :: rest =>
      if b.addr + b.size = c.addr then
        squeezeFuel fuel (⟨b.addr, b.data_addr, b.size + c.size⟩ :: rest)
      else
        b :: squeezeFuel fuel (c :: rest)

/-- heap_squeeze (implementation.c, lines 478-493): combines the heap's
contiguous free blocks in one forward pass. -/
def heap_squeeze (l : List BlockHead) : List BlockHead :=
  squeezeFuel l.length l

/-- Loop of heap_squeeze in memlib.c (lines 244-255): curr never advances;
while curr->next exists, an address-adjacent successor is folded into curr
and a non-adjacent successor is dropped (curr->next = curr->next->next runs
unconditionally). -/
def heap_squeeze_memlib_loop : BlockHead → List BlockHead → BlockHead
  | b, [] => b
  | b, c :: rest =>
      if b.addr + b.size = c.addr then
        heap_squeeze_memlib_loop ⟨b.addr, b.data_addr, b.size + c.size⟩ rest
      else
        heap_squeeze_memlib_loop b rest

/-- heap_squeeze (memlib.c): after the loop, the chain from first_free
consists of the head block alone. -/
def heap_squeeze_memlib : List BlockHead → List BlockHead
  | [] => []
  | b :: rest => [heap_squeeze_memlib_loop b rest]

/-- Tail of the insertion walk of block_add_tofree (implementation.c): the
new block is spliced immediately before the first block whose address is
greater (curr->prev->next = block; block->next = curr).  The [] case is
unreachable: block_add_tofree only enters this path when some block of the
list has a greater address. -/
def insertMid : List BlockHead → BlockHead → List BlockHead
  | [], block => [block]
  | c :: rest, block =>
      if block.addr < c.addr then block :: c :: rest
      else c :: insertMid rest block

/-- block_add_tofree (implementation.c, lines 520-557).  Empty list: the
block becomes the head and the function returns before squeezing.
Otherwise the walk looks for the first block with a greater address:
  * none found: the block is spliced directly after the head
    (first_free->next = block), which drops the rest of the chain since
    block->next is NULL at every call site (heap_expand initialises it,
    block_rm_fromfree cleared it before do_free);
  * the head is greater: the block becomes the new head;
  * otherwise the block is spliced before that first greater block.
heap_squeeze then coalesces.  The aliasing guard block == first_free of
the no-greater case cannot fire for a block not already in the list. -/
def block_add_tofree (fl : List BlockHead) (block : BlockHead) : List BlockHead :=
  match fl with
  | [] => [block]
  | head :: rest =>
      let inserted :=
        if ∀ c ∈ head :: rest, c.addr ≤ block.addr then [head, block]
        else if block.addr < head.addr then block :: head :: rest
        else head :: insertMid rest block
      heap_squeeze inserted

/-- Net effect on the next-chain of block_chunk's splice of the right half
followed by block_rm_fromfree of the chosen block (do_malloc): the chain
node whose base address is a is replaced by repl (the right half when a
split happened, nothing otherwise). -/
def replaceBlock (fl : List BlockHead) (a : Nat) (repl : List BlockHead) : List BlockHead :=
  match fl with
  | [] => []
  | x :: rest => if x.addr = a then repl ++ rest else x :: replaceBlock rest a repl

/-- block_chunk (implementation.c, lines 409-435).  b2_size and b1_size are
size_t differences (sub64).  Returns none when the computed split address
is NULL (the C function returns NULL there, unreachable for real blocks);
otherwise the possibly resized left block together with the right block
when the split was performed. -/
def block_chunk (block : BlockHead) (size : Nat) : Option (BlockHead × Option BlockHead) :=
  let block2addr := block.addr + size
  let b2_size := sub64 block.size size
  let b1_size := sub64 block.size b2_size
  if block2addr = 0 then none
  else if MIN_BLOCK_SZ ≤ b2_size ∧ MIN_BLOCK_SZ ≤ b1_size then
    some (⟨block.addr, block.data_addr, b1_size⟩,
          some ⟨block2addr, block2addr + BLOCK_HEAD_SZ, b2_size⟩)
  else
    some (block, none)

/-- heap_init (implementation.c): maps START_HEAP_SZ bytes; a NULL result
(mmap failure, modelled by oracle none or address 0) leaves the heap
uninitialised.  Otherwise the heap header is placed at the region base and
one free block of START_HEAP_SZ - HEAP_HEAD_SZ bytes follows it. -/
def heap_init (mm : Option Nat) : Option HeapHead :=
  match mm with
  | none => none
  | some base =>
      if base = 0 then none
      else
        some { size := START_HEAP_SZ
               start_addr := base
               first_free := [⟨base + HEAP_HEAD_SZ, base + HEAP_HEAD_SZ + BLOCK_HEAD_SZ,
                               START_HEAP_SZ - HEAP_HEAD_SZ⟩] }

/-- heap_expand (implementation.c, lines 382-403): maps
max(size, START_HEAP_SZ) bytes; on failure returns NULL leaving the heap
untouched; on success initialises the region as one free block of that
size, adds the size to the heap total and inserts the block. -/
def heap_expand (mm : Option Nat) (h : HeapHead) (size0 : Nat) :
    Option BlockHead × HeapHead :=
  let size := if size0 < START_HEAP_SZ then START_HEAP_SZ else size0
  match mm with
  | none => (none, h)
  | some a =>
      if a = 0 then (none, h)
      else
        let new_block : BlockHead := ⟨a, a + BLOCK_HEAD_SZ, size⟩
        (some new_block,
         { h with size := h.size + size
                  first_free := block_add_tofree h.first_free new_block })

/-- block_findfree (implementation.c, lines 503-515): first-fit walk of the
free list; on miss the heap is expanded. -/
def block_findfree (mmE : Option Nat) (h : HeapHead) (size : Nat) :
    Option BlockHead × HeapHead :=
  match h.first_free.find? (fun b => size ≤ b.size) with
  | some b => (some b, h)
  | none => heap_expand mmE h size

/-- Munmap calls performed by the walk of heap_free (implementation.c,
lines 449-474): every successor that is not address-contiguous with the
current block is unmapped individually. -/
def heap_free_walk : List BlockHead → List (Nat × Nat)
  | [] => []
  | [_] => []
  | b :: c :: rest =>
      if b.addr + b.size ≠ c.addr then (c.addr, c.size) :: heap_free_walk rest
      else heap_free_walk (c :: rest)

/-- heap_free (implementation.c): unmaps the non-contiguous blocks (each
subtracted from the heap total), unmaps the descriptor region with the
remaining size, and sets g_heap = NULL.  Returns the munmap trace and the
resulting (null) heap pointer. -/
def heap_free (h : HeapHead) : List (Nat × Nat) × Option HeapHead :=
  let frees := heap_free_walk h.first_free
  (frees ++ [(h.start_addr, h.size - (frees.map Prod.snd).sum)], none)

/-- Body of do_malloc after the heap exists (implementation.c, lines
594-619): size += BLOCK_HEAD_SZ in size_t arithmetic, first-fit search
(with expansion), split when the block is larger than needed, removal from
the free list; returns the chosen block (the C code returns its data_addr
field). -/
def do_malloc_core (mmE : Option Nat) (h : HeapHead) (n : Nat) :
    Option BlockHead × Option HeapHead :=
  let size := (n + BLOCK_HEAD_SZ) % SIZE_MOD
  match block_findfree mmE h size with
  | (none, h1) => (none, some h1)
  | (some free_block, h1) =>
      if size < free_block.size then
        match block_chunk free_block size with
        | none => (none, some h1)
        | some (lb, rb) =>
            (some lb,
             some { h1 with first_free := replaceBlock h1.first_free free_block.addr rb.toList })
      else
        (some free_block,
         some { h1 with first_free := replaceBlock h1.first_free free_block.addr [] })

/-- do_malloc (implementation.c): NULL on size 0; lazily initialises the
heap (mmap oracle mmI).  When that initialisation fails the C code would
dereference the null g_heap inside block_findfree; that crash path is
modelled as a failed allocation with a null heap. -/
def do_malloc (mmI mmE : Option Nat) (g : Option HeapHead) (n : Nat) :
    Option BlockHead × Option HeapHead :=
  if n = 0 then (none, g)
  else
    match (match g with | none => heap_init mmI | some h => some h) with
    | none => (none, none)
    | some h => do_malloc_core mmE h n

/-- do_free (implementation.c, lines 635-654): a null pointer is a no-op;
otherwise the block header is reinserted into the free list (coalescing),
the sizes of all free blocks are summed, and when the sum equals
g_heap->size - HEAP_HEAD_SZ the whole heap is torn down (heap_free, which
nulls the descriptor).  A non-null pointer with a null heap would
dereference g_heap in C; modelled as the null heap. -/
def do_free (g : Option HeapHead) (ptr : Option BlockHead) : Option HeapHead :=
  match ptr with
  | none => g
  | some block =>
      match g with
      | none => none
      | some h =>
          let fl := block_add_tofree h.first_free block
          let free_sz := (fl.map BlockHead.size).sum
          if free_sz = h.size - HEAP_HEAD_SZ then (heap_free { h with first_free := fl }).2
          else some { h with first_free := fl }

/-- do_calloc (implementation.c, lines 624-631): overflow-checked product;
when it is nonzero, do_malloc and zero-fill of the payload through mem_set
(whose return value, the malloc result, is what do_calloc returns —
address 0 when the allocation failed). -/
def do_calloc (mmI mmE : Option Nat) (g : Option HeapHead) (mem : Nat → Nat)
    (nmemb size : Nat) : Option Nat × Option HeapHead × (Nat → Nat) :=
  let total_sz := sizet_multiply nmemb size
  if total_sz ≠ 0 then
    match do_malloc mmI mmE g total_sz with
    | (none, g1) => (none, g1, mem_set mem 0 0 total_sz)
    | (some fb, g1) => (some fb.data_addr, g1, mem_set mem fb.data_addr 0 total_sz)
  else (none, g, mem)

/-- Copy length computed by do_realloc in implementation.c (lines 674-678):
cpy_len = size, clamped to old_block->size when size is larger. -/
def realloc_cpy_len (size oldsz : Nat) : Nat :=
  if oldsz < size then oldsz else size

/-- Copy length computed by do_realloc in src/unnamed/part_000 (lines
565-569): cpy_len is initialised to size, but the clamp reassigns the
variable size instead of cpy_len, so cpy_len stays the requested size. -/
def realloc_cpy_len_p000 (size oldsz : Nat) : Nat :=
  let cpy_len := size
  let size := if oldsz < size then oldsz else size
  let _ := size
  cpy_len

/-- do_realloc (implementation.c, lines 659-682).  size 0 frees; null ptr
mallocs.  Otherwise do_malloc runs and its result is used unconditionally:
mem_cpy copies cpy_len bytes from the old payload to the new payload (to
address 0 when the allocation failed), do_free releases the old block, and
the (possibly null) new pointer is returned.  A live ptr is passed as its
block header (block_getheader recovers it from the data address in C). -/
def do_realloc (mmI mmE : Option Nat) (g : Option HeapHead) (mem : Nat → Nat)
    (ptr : Option BlockHead) (size : Nat) :
    Option Nat × Option HeapHead × (Nat → Nat) :=
  if size = 0 then (none, do_free g ptr, mem)
  else
    match ptr with
    | none =>
        match do_malloc mmI mmE g size with
        | (none, g1) => (none, g1, mem)
        | (some fb, g1) => (some fb.data_addr, g1, mem)
    | some old_block =>
        match do_malloc mmI mmE g size with
        | (nb, g1) =>
            let new_data := match nb with | none => 0 | some fb => fb.data_addr
            let cpy_len := realloc_cpy_len size old_block.size
            let mem1 := mem_cpy mem new_data old_block.data_addr cpy_len
            let g2 := do_free g1 (some old_block)
            ((match nb with | none => none | some fb => some fb.data_addr), g2, mem1)

/-- The free list is strictly sorted ascending by block base address. -/
def FreeListSorted (l : List BlockHead) : Prop :=
  List.Pairwise (fun a b => a.addr < b.addr) l

/-- A list of blocks forming one contiguous run: every block ends exactly
where its successor begins. -/
def ContigRun (l : List BlockHead) : Prop :=
  List.Chain' (fun a b => a.addr + a.size = b.addr) l

instance : DecidablePred FreeListSorted := fun l =>
  inferInstanceAs (Decidable (List.Pairwise _ l))

instance : DecidablePred FreeListSorted := fun l =>
  inferInstanceAs (Decidable (List.Pairwise _ l))

instance : DecidablePred ContigRun := fun l =>
  inferInstanceAs (Decidable (List.Chain' _ l))

/-! ## Arithmetic helper lemmas -/

theorem SIZE_MOD_pos : 0 < SIZE_MOD := by decide

/-- size_t subtraction agrees with Nat subtraction below 2^64. -/
theorem sub64_eq (a b : Nat) (hb : b ≤ a) (ha : a < SIZE_MOD) : sub64 a b = a - b := by
  unfold sub64
  rw [Nat.mod_eq_of_lt (Nat.lt_of_le_of_lt hb ha)]
  have h1 : a + (SIZE_MOD - b) = SIZE_MOD + (a - b) := by omega
  rw [h1, Nat.add_mod_left]
  exact Nat.mod_eq_of_lt (by omega)

/-- The if of heap_expand computes max. -/
theorem expand_size_eq_max (n : Nat) :
    (if n < START_HEAP_SZ then START_HEAP_SZ else n) = max n START_HEAP_SZ := by
  rcases Nat.lt_or_ge n START_HEAP_SZ with hlt | hge
  · rw [if_pos hlt, Nat.max_eq_right (Nat.le_of_lt hlt)]
  · rw [if_neg (Nat.not_lt.mpr hge), Nat.max_eq_left hge]

/-- sizet_multiply returns the true product when it does not overflow. -/
theorem sizet_multiply_pos (a b : Nat) (ha : a ≠ 0) (hb : b ≠ 0)
    (hlt : a * b < SIZE_MOD) : sizet_multiply a b = a * b := by
  unfold sizet_multiply
  rw [if_neg (by simp [ha, hb])]
  simp only [Nat.mod_eq_of_lt hlt]
  rw [if_neg]
  push_neg
  exact ⟨Nat.mul_mod_right a b, Nat.mul_div_cancel_left b (Nat.pos_of_ne_zero ha)⟩

/-- sizet_multiply detects every size_t overflow of the product. -/
theorem sizet_multiply_overflow (a b : Nat) (hge : SIZE_MOD ≤ a * b) :
    sizet_multiply a b = 0 := by
  unfold sizet_multiply
  by_cases h0 : a = 0 ∨ b = 0
  · rw [if_pos h0]
  · rw [if_neg h0]
    push_neg at h0
    simp only
    by_cases hchk : a * b % SIZE_MOD % a ≠ 0 ∨ a * b % SIZE_MOD / a ≠ b
    · rw [if_pos hchk]
    · exfalso
      push_neg at hchk
      have hda := Nat.div_add_mod (a * b % SIZE_MOD) a
      have htlt : a * b % SIZE_MOD < SIZE_MOD := Nat.mod_lt _ SIZE_MOD_pos
      have ht : a * b % SIZE_MOD = a * b := by
        rw [hchk.2] at hda
        omega
      omega

/-- Characterisation of sizet_multiply's zero result. -/
theorem sizet_multiply_eq_zero_iff (a b : Nat) :
    sizet_multiply a b = 0 ↔ a = 0 ∨ b = 0 ∨ SIZE_MOD ≤ a * b := by
  constructor
  · intro h
    by_contra hc
    push_neg at hc
    obtain ⟨ha, hb, hlt⟩ := hc
    rw [sizet_multiply_pos a b ha hb hlt] at h
    exact (Nat.mul_ne_zero ha hb) h
  · rintro (h | h | h)
    · simp [sizet_multiply, h]
    · simp [sizet_multiply, h]
    · exact sizet_multiply_overflow a b h

/-! ## mem_set lemmas -/

/-- mem_set leaves addresses below the fill region unchanged. -/
theorem mem_set_lt (n : Nat) :
    ∀ (mem : Nat → Nat) (s c a : Nat), a < s → mem_set mem s c n a = mem a := by
  induction n with
  | zero => intro mem s c a _; rfl
  | succ n ih =>
      intro mem s c a ha
      show mem_set (fun x => if x = s then c else mem x) (s + 1) c n a = mem a
      rw [ih _ _ _ _ (Nat.lt_succ_of_lt ha)]
      simp [Nat.ne_of_lt ha]

/-- Every byte of the fill region holds the fill value after mem_set. -/
theorem mem_set_get (n : Nat) :
    ∀ (mem : Nat → Nat) (s c i : Nat), i < n → mem_set mem s c n (s + i) = c := by
  induction n with
  | zero => intro _ _ _ _ h; omega
  | succ n ih =>
      intro mem s c i hi
      show mem_set (fun x => if x = s then c else mem x) (s + 1) c n (s + i) = c
      cases i with
      | zero =>
          rw [mem_set_lt n _ _ _ _ (by omega)]
          simp
      | succ j =>
          have h1 : s + (j + 1) = (s + 1) + j := by omega
          rw [h1, ih _ _ _ _ (by omega)]

/-! ## heap_expand computation lemmas (shared by several claims) -/

/-- heap_expand with a failing mmap leaves everything untouched. -/
theorem heap_expand_none (h : HeapHead) (n : Nat) : heap_expand none h n = (none, h) := by
  simp [heap_expand]

/-- heap_expand with an mmap result of NULL leaves everything untouched. -/
theorem heap_expand_zero (h : HeapHead) (n : Nat) :
    heap_expand (some 0) h n = (none, h) := by
  simp [heap_expand]

/-- heap_expand with a successful mmap at a: one new free block of
max(n, START_HEAP_SZ) bytes, the heap total grown by that amount, the
block inserted into the free list. -/
theorem heap_expand_some (h : HeapHead) (n a : Nat) (ha : a ≠ 0) :
    heap_expand (some a) h n =
      (some ⟨a, a + BLOCK_HEAD_SZ, max n START_HEAP_SZ⟩,
       { h with size := h.size + max n START_HEAP_SZ,
                first_free := block_add_tofree h.first_free
                    ⟨a, a + BLOCK_HEAD_SZ, max n START_HEAP_SZ⟩ }) := by
  simp only [heap_expand, expand_size_eq_max]
  rw [if_neg ha]

/-! ## Coalescing lemmas -/

/-- Every block of a squeezed list keeps the base address of some block of
the input list (merges keep the lower base). -/
theorem squeezeFuel_addrs (fuel : Nat) :
    ∀ (l : List BlockHead) (x : BlockHead), x ∈ squeezeFuel fuel l →
      ∃ y ∈ l, y.addr = x.addr := by
  induction fuel with
  | zero => intro l x hx; exact ⟨x, hx, rfl⟩
  | succ fuel ih =>
      intro l x hx
      match l with
      | [] => exact ⟨x, hx, rfl⟩
      | [b] => exact ⟨x, hx, rfl⟩
      | b :: c :: rest =>
          by_cases hadj : b.addr + b.size = c.addr
          · rw [show squeezeFuel (fuel + 1) (b :: c :: rest)
                = squeezeFuel fuel (⟨b.addr, b.data_addr, b.size + c.size⟩ :: rest) by
                  simp [squeezeFuel, hadj]] at hx
            rcases ih _ x hx with ⟨y, hy, hyx⟩
            rcases List.mem_cons.mp hy with he | hy2
            · exact ⟨b, List.mem_cons_self b _, by rw [← hyx, he]⟩
            · exact ⟨y, List.mem_cons_of_mem b (List.mem_cons_of_mem c hy2), hyx⟩
          · rw [show squeezeFuel (fuel + 1) (b :: c :: rest)
                = b :: squeezeFuel fuel (c :: rest) by simp [squeezeFuel, hadj]] at hx
            rcases List.mem_cons.mp hx with he | hx2
            · exact ⟨b, List.mem_cons_self b _, by rw [he]⟩
            · rcases ih _ x hx2 with ⟨y, hy, hyx⟩
              exact ⟨y, List.mem_cons_of_mem b hy, hyx⟩

/-- Coalescing preserves strict address sortedness. -/
theorem squeezeFuel_sorted (fuel : Nat) :
    ∀ l : List BlockHead,
      List.Pairwise (fun a b => a.addr < b.addr) l →
      List.Pairwise (fun a b => a.addr < b.addr) (squeezeFuel fuel l) := by
  induction fuel with
  | zero => intro l h; exact h
  | succ fuel ih =>
      intro l h
      match l with
      | [] => exact h
      | [b] => exact h
      | b :: c :: rest =>
          rcases List.pairwise_cons.mp h with ⟨hb, h2⟩
          by_cases hadj : b.addr + b.size = c.addr
          · rw [show squeezeFuel (fuel + 1) (b :: c :: rest)
                = squeezeFuel fuel (⟨b.addr, b.data_addr, b.size + c.size⟩ :: rest) by
                  simp [squeezeFuel, hadj]]
            apply ih
            refine List.pairwise_cons.mpr ⟨?_, (List.pairwise_cons.mp h2).2⟩
            intro y hy
            exact hb y (List.mem_cons_of_mem c hy)
          · rw [show squeezeFuel (fuel + 1) (b :: c :: rest)
                = b :: squeezeFuel fuel (c :: rest) by simp [squeezeFuel, hadj]]
            refine List.pairwise_cons.mpr ⟨?_, ih _ h2⟩
            intro y hy
            rcases squeezeFuel_addrs fuel _ y hy with ⟨z, hz, hzy⟩
            rw [← hzy]
            exact hb z hz

/-- A block that is not address-adjacent (on either side) to anything in
the list survives coalescing. -/
theorem squeezeFuel_mem (nb : BlockHead) (fuel : Nat) :
    ∀ l : List BlockHead, nb ∈ l →
      (∀ b ∈ l, b.addr + b.size ≠ nb.addr) →
      (∀ b ∈ l, b ≠ nb → nb.addr + nb.size ≠ b.addr) →
      nb ∈ squeezeFuel fuel l := by
  induction fuel with
  | zero => intro l hm _ _; exact hm
  | succ fuel ih =>
      intro l hm h1 h2
      match l with
      | [] => exact hm
      | [b] => exact hm
      | b :: c :: rest =>
          by_cases hadj : b.addr + b.size = c.addr
          · have hcnb : c ≠ nb := by
              intro he
              exact h1 b (List.mem_cons_self _ _) (by rw [he] at hadj; exact hadj)
            have hbnb : b ≠ nb := by
              intro he
              apply h2 c (List.mem_cons_of_mem b (List.mem_cons_self _ _)) hcnb
              rw [← he]
              exact hadj
            have hmem : nb ∈ rest := by
              rcases List.mem_cons.mp hm with he | hm2
              · exact absurd he.symm hbnb
              · rcases List.mem_cons.mp hm2 with he | hm3
                · exact absurd he.symm hcnb
                · exact hm3
            rw [show squeezeFuel (fuel + 1) (b :: c :: rest)
                = squeezeFuel fuel (⟨b.addr, b.data_addr, b.size + c.size⟩ :: rest) by
                  simp [squeezeFuel, hadj]]
            apply ih _ (List.mem_cons_of_mem _ hmem)
            · intro x hx
              rcases List.mem_cons.mp hx with he | hx2
              · rw [he]
                show b.addr + (b.size + c.size) ≠ nb.addr
                have hc1 : c.addr + c.size ≠ nb.addr :=
                  h1 c (List.mem_cons_of_mem b (List.mem_cons_self _ _))
                omega
              · exact h1 x (List.mem_cons_of_mem b (List.mem_cons_of_mem c hx2))
            · intro x hx hxnb
              rcases List.mem_cons.mp hx with he | hx2
              · rw [he]
                show nb.addr + nb.size ≠ b.addr
                exact h2 b (List.mem_cons_self _ _) hbnb
              · exact h2 x (List.mem_cons_of_mem b (List.mem_cons_of_mem c hx2)) hxnb
          · rw [show squeezeFuel (fuel + 1) (b :: c :: rest)
                = b :: squeezeFuel fuel (c :: rest) by simp [squeezeFuel, hadj]]
            rcases List.mem_cons.mp hm with he | hm2
            · rw [he]
              exact List.mem_cons_self _ _
            · refine List.mem_cons_of_mem b (ih _ hm2 ?_ ?_)
              · intro x hx
                exact h1 x (List.mem_cons_of_mem b hx)
              · intro x hx hxnb
                exact h2 x (List.mem_cons_of_mem b hx) hxnb

/-- heap_squeeze wrapper of squeezeFuel_mem. -/
theorem heap_squeeze_mem (nb : BlockHead) (l : List BlockHead) (hm : nb ∈ l)
    (h1 : ∀ b ∈ l, b.addr + b.size ≠ nb.addr)
    (h2 : ∀ b ∈ l, b ≠ nb → nb.addr + nb.size ≠ b.addr) :
    nb ∈ heap_squeeze l :=
  squeezeFuel_mem nb l.length l hm h1 h2

/-- On a contiguous run, one squeeze step of the later routine mirrors one
step of the memlib loop. -/
theorem contig_loop_eq (rest : List BlockHead) :
    ∀ b : BlockHead, ContigRun (b :: rest) →
      squeezeFuel (rest.length + 1) (b :: rest) = [heap_squeeze_memlib_loop b rest] := by
  induction rest with
  | nil => intro b _; rfl
  | cons c rest ih =>
      intro b hch
      have hadj : b.addr + b.size = c.addr := (List.chain'_cons.mp hch).1
      have hch2 : ContigRun (c :: rest) := (List.chain'_cons.mp hch).2
      have hstep : squeezeFuel ((c :: rest).length + 1) (b :: c :: rest)
          = squeezeFuel (rest.length + 1) (⟨b.addr, b.data_addr, b.size + c.size⟩ :: rest) := by
        show squeezeFuel (rest.length + 1 + 1) (b :: c :: rest) = _
        simp [squeezeFuel, hadj]
      rw [hstep]
      have hch3 : ContigRun ((⟨b.addr, b.data_addr, b.size + c.size⟩ : BlockHead) :: rest) := by
        unfold ContigRun at hch2 ⊢
        cases rest with
        | nil => simp
        | cons d rest2 =>
            refine List.chain'_cons.mpr ⟨?_, (List.chain'_cons.mp hch2).2⟩
            have hcd : c.addr + c.size = d.addr := (List.chain'_cons.mp hch2).1
            show b.addr + (b.size + c.size) = d.addr
            omega
      rw [ih _ hch3]
      rw [show heap_squeeze_memlib_loop b (c :: rest)
          = heap_squeeze_memlib_loop ⟨b.addr, b.data_addr, b.size + c.size⟩ rest by
            simp [heap_squeeze_memlib_loop, hadj]]

/-! ## Ordered insertion lemmas -/

/-- The inserted block is a member of the spliced list. -/
theorem insertMid_mem (l : List BlockHead) (b : BlockHead) : b ∈ insertMid l b := by
  induction l with
  | nil => exact List.mem_singleton_self b
  | cons c rest ih =>
      by_cases h : b.addr < c.addr
      · rw [show insertMid (c :: rest) b = b :: c :: rest by simp [insertMid, h]]
        exact List.mem_cons_self b _
      · rw [show insertMid (c :: rest) b = c :: insertMid rest b by simp [insertMid, h]]
        exact List.mem_cons_of_mem c ih

/-- Every member of the spliced list is the new block or an old member. -/
theorem insertMid_subset (l : List BlockHead) (b x : BlockHead)
    (hx : x ∈ insertMid l b) : x = b ∨ x ∈ l := by
  induction l with
  | nil => exact Or.inl (List.mem_singleton.mp hx)
  | cons c rest ih =>
      by_cases h : b.addr < c.addr
      · rw [show insertMid (c :: rest) b = b :: c :: rest by simp [insertMid, h]] at hx
        rcases List.mem_cons.mp hx with he | hx2
        · exact Or.inl he
        · exact Or.inr hx2
      · rw [show insertMid (c :: rest) b = c :: insertMid rest b by simp [insertMid, h]] at hx
        rcases List.mem_cons.mp hx with he | hx2
        · exact Or.inr (by rw [he]; exact List.mem_cons_self _ _)
        · rcases ih hx2 with h1 | h1
          · exact Or.inl h1
          · exact Or.inr (List.mem_cons_of_mem c h1)

/-- Splicing before the first greater block preserves strict sortedness
when the new address differs from every existing address. -/
theorem insertMid_sorted (l : List BlockHead) (b : BlockHead)
    (hs : List.Pairwise (fun x y => x.addr < y.addr) l)
    (hd : ∀ y ∈ l, y.addr ≠ b.addr) :
    List.Pairwise (fun x y => x.addr < y.addr) (insertMid l b) := by
  induction l with
  | nil => simp [insertMid]
  | cons c rest ih =>
      rcases List.pairwise_cons.mp hs with ⟨hc, hr⟩
      by_cases h : b.addr < c.addr
      · rw [show insertMid (c :: rest) b = b :: c :: rest by simp [insertMid, h]]
        refine List.pairwise_cons.mpr ⟨?_, hs⟩
        intro y hy
        rcases List.mem_cons.mp hy with he | hy2
        · rw [he]; exact h
        · exact Nat.lt_trans h (hc y hy2)
      · have hcb : c.addr < b.addr :=
          Nat.lt_of_le_of_ne (Nat.not_lt.mp h) (hd c (List.mem_cons_self c rest))
        rw [show insertMid (c :: rest) b = c :: insertMid rest b by simp [insertMid, h]]
        refine List.pairwise_cons.mpr
          ⟨?_, ih hr (fun y hy => hd y (List.mem_cons_of_mem c hy))⟩
        intro y hy
        rcases insertMid_subset rest b y hy with he | hy2
        · rw [he]; exact hcb
        · exact hc y hy2

/-! ## Claim theorems -/

/-- C1: allocate(n) is claimed to hand back a block whose header size is at
least n + header_size even when req = n + header_size wraps.  The code
violates this: on a fresh heap, do_malloc(2^64 - 1) wraps the internal
request to 31, succeeds, and returns the 16777192-byte initial block — far
fewer than the requested 2^64 - 1 writable bytes. -/
theorem c1_malloc_wrap_returns_undersized_block :
    (do_malloc (some 4096) none none (2 ^ 64 - 1)).1 =
      some ⟨4120, 4152, 16777192⟩ ∧
    16777192 < (2 ^ 64 - 1) + BLOCK_HEAD_SZ := by
  exact ⟨by decide, by decide⟩

/-- C3: the claim says that when the internal allocate of reallocate(p, n)
fails, the old block remains live.  The code has no null check: with a
live 100-byte block, an empty free list and a failing mmap, do_realloc
returns null but do_free(ptr) has run, so the old block sits in the free
list (it was released), contradicting the claim. -/
theorem c3_realloc_alloc_failure_frees_old_block :
    (do_realloc none none (some ⟨16777216, 4096, []⟩) (fun _ => 0)
        (some ⟨4120, 4152, 100⟩) 200).1 = none ∧
    (do_realloc none none (some ⟨16777216, 4096, []⟩) (fun _ => 0)
        (some ⟨4120, 4152, 100⟩) 200).2.1 =
      some ⟨16777216, 4096, [⟨4120, 4152, 100⟩]⟩ := by
  exact ⟨rfl, rfl⟩

/-- C5 counterexample: in the src/unnamed/part_000 iteration of reallocate,
the copy length for n = 200 and old block size 100 is 200, not
min(200, 100) = 100 — the clamp there reassigns the request variable
instead of cpy_len, so the claim as stated fails on that code. -/
theorem c5_part000_copy_len_not_min :
    realloc_cpy_len_p000 200 100 ≠ min 200 100 := by decide

/-- C5 (amended): in implementation.c the copy length of a successful
reallocate(p, n) is exactly min(n, old_block.size), old_block.size being
the old block's size field; the part_000 iteration instead copies exactly
n bytes. -/
theorem c5_impl_copy_len_is_min (size oldsz : Nat) :
    realloc_cpy_len size oldsz = min size oldsz := by
  unfold realloc_cpy_len
  rcases Nat.lt_or_ge oldsz size with h | h
  · rw [if_pos h, Nat.min_eq_right (Nat.le_of_lt h)]
  · rw [if_neg (Nat.not_lt.mpr h), Nat.min_eq_left h]

/-- C6: releasing a live pointer when, after reinsertion and coalescing,
the free-block sizes sum to heap.size - heap_header_size runs teardown and
leaves the heap descriptor null; and an allocation that finds the
descriptor null reinitialises the heap before proceeding. -/
theorem c6_free_all_free_tears_down (h : HeapHead) (blk : BlockHead)
    (hsum : ((block_add_tofree h.first_free blk).map BlockHead.size).sum
              = h.size - HEAP_HEAD_SZ) :
    do_free (some h) (some blk) = none ∧
    ∀ (mmI mmE : Option Nat) (n : Nat), n ≠ 0 →
      do_malloc mmI mmE none n =
        (match heap_init mmI with
         | none => (none, none)
         | some h2 => do_malloc mmI mmE (some h2) n) := by
  refine ⟨?_, ?_⟩
  · simp only [do_free]
    rw [if_pos hsum]
    rfl
  · intro mmI mmE n hn
    simp only [do_malloc, if_neg hn]

/-- C6 witness: a heap of 16 MiB whose only live block is released; the
free sum equals heap.size - HEAP_HEAD_SZ and the descriptor becomes null. -/
theorem c6_free_all_free_tears_down_witness :
    do_free (some ⟨16777216, 4096, []⟩) (some ⟨4120, 4152, 16777192⟩) = none :=
  (c6_free_all_free_tears_down ⟨16777216, 4096, []⟩ ⟨4120, 4152, 16777192⟩
    (by decide)).1

/-- C7: for a free block of size S and a header-inclusive target T (with
T ≤ S as at every call site, S below 2^64, and a non-null base), the split
happens iff both T and S - T are at least MIN_BLOCK_SZ = header + 1; when
it happens the left block's size becomes T and a right block of size S - T
is created at base + T with its data pointer set; otherwise the block is
returned intact with size S. -/
theorem c7_block_chunk_split_iff (block : BlockHead) (size : Nat)
    (hT : size ≤ block.size) (hS : block.size < SIZE_MOD) (ha : 0 < block.addr) :
    ((MIN_BLOCK_SZ ≤ size ∧ MIN_BLOCK_SZ ≤ block.size - size) →
       block_chunk block size =
         some (⟨block.addr, block.data_addr, size⟩,
               some ⟨block.addr + size, block.addr + size + BLOCK_HEAD_SZ,
                     block.size - size⟩)) ∧
    (¬(MIN_BLOCK_SZ ≤ size ∧ MIN_BLOCK_SZ ≤ block.size - size) →
       block_chunk block size = some (block, none)) := by
  have e2 : sub64 block.size size = block.size - size := sub64_eq _ _ hT hS
  have e1 : sub64 block.size (block.size - size) = size := by
    rw [sub64_eq _ _ (Nat.sub_le _ _) hS]
    omega
  have hne : ¬ (block.addr + size = 0) := by omega
  constructor
  · rintro ⟨h1, h2⟩
    simp only [block_chunk, e2, e1]
    rw [if_neg hne, if_pos ⟨h2, h1⟩]
  · intro hno
    simp only [block_chunk, e2, e1]
    rw [if_neg hne, if_neg (by tauto)]

/-- C7 witness: block of size 200 at base 100, target 50: both halves are
at least 33, so the split yields a left of size 50 and a right of size 150
at base 150. -/
theorem c7_block_chunk_split_iff_witness :
    block_chunk ⟨100, 132, 200⟩ 50 =
      some (⟨100, 132, 50⟩, some ⟨150, 182, 150⟩) :=
  (c7_block_chunk_split_iff ⟨100, 132, 200⟩ 50 (by decide) (by decide)
    (by decide)).1 (by decide)

/-- C8: heap expansion for a header-inclusive request n maps exactly
max(n, INIT_SIZE) bytes, initialises the region as one free block of that
size, adds that amount to the heap descriptor's total and inserts the
block; on map failure (oracle none, or NULL result) it returns null and
neither the free list nor the descriptor is modified. -/
theorem c8_heap_expand_spec (h : HeapHead) (n : Nat) :
    heap_expand none h n = (none, h) ∧
    heap_expand (some 0) h n = (none, h) ∧
    ∀ a : Nat, a ≠ 0 →
      heap_expand (some a) h n =
        (some ⟨a, a + BLOCK_HEAD_SZ, max n START_HEAP_SZ⟩,
         { h with size := h.size + max n START_HEAP_SZ,
                  first_free := block_add_tofree h.first_free
                      ⟨a, a + BLOCK_HEAD_SZ, max n START_HEAP_SZ⟩ }) :=
  ⟨heap_expand_none h n, heap_expand_zero h n, fun a ha => heap_expand_some h n a ha⟩

/-- C8 witness: expanding an all-live 16 MiB heap by a 5-byte request maps
a full 16 MiB region at 4096 + 16 MiB and accounts for it. -/
theorem c8_heap_expand_spec_witness :
    heap_expand (some 16781312) ⟨16777216, 4096, []⟩ 5 =
      (some ⟨16781312, 16781344, 16777216⟩,
       ⟨33554432, 4096, [⟨16781312, 16781344, 16777216⟩]⟩) :=
  (c8_heap_expand_spec ⟨16777216, 4096, []⟩ 5).2.2 16781312 (by decide)

/-- C9 counterexample: on the strictly sorted, acyclic free list with two
non-adjacent blocks at 4096 and 8192, the memlib.c coalesce drops the
second block while the implementation.c coalesce keeps both, so the two
routines do not produce the same resulting free list. -/
theorem c9_squeeze_versions_differ :
    heap_squeeze_memlib [⟨4096, 4128, 100⟩, ⟨8192, 8224, 100⟩] ≠
      heap_squeeze [⟨4096, 4128, 100⟩, ⟨8192, 8224, 100⟩] := by decide

/-- C9 (amended): the two coalesce iterations agree exactly on free lists
forming a single contiguous run — there both return the one merged block —
while on a list with a non-adjacent successor the memlib.c routine drops
every non-adjacent block (its cursor never advances) and the
implementation.c routine merges exactly the address-adjacent pairs and
keeps every non-adjacent block. -/
theorem c9_squeeze_versions_agree_on_contiguous (l : List BlockHead)
    (hc : ContigRun l) :
    heap_squeeze_memlib l = heap_squeeze l := by
  match l with
  | [] => rfl
  | b :: rest =>
      unfold heap_squeeze
      rw [show (b :: rest).length = rest.length + 1 from rfl,
          contig_loop_eq rest b hc]
      rfl

/-- C9 amended witness: two contiguous blocks at 4096 and 4196; both
routines produce the single merged block of size 150. -/
theorem c9_squeeze_versions_agree_on_contiguous_witness :
    heap_squeeze_memlib [⟨4096, 4128, 100⟩, ⟨4196, 4228, 50⟩] =
      heap_squeeze [⟨4096, 4128, 100⟩, ⟨4196, 4228, 50⟩] :=
  c9_squeeze_versions_agree_on_contiguous _
    (List.chain'_pair.mpr (by decide))

/-- C2: inserting a block whose address differs from every free block's
address into a strictly sorted free list — including the case where its
address is greater than every address in the list, where the code splices
it directly after the head — leaves the free list strictly sorted
ascending by base address (coalescing included). -/
theorem c2_add_tofree_preserves_sorted (fl : List BlockHead) (block : BlockHead)
    (hs : FreeListSorted fl) (hd : ∀ y ∈ fl, y.addr ≠ block.addr) :
    FreeListSorted (block_add_tofree fl block) := by
  unfold FreeListSorted at hs ⊢
  match fl with
  | [] => simp [block_add_tofree]
  | head :: rest =>
      rcases List.pairwise_cons.mp hs with ⟨hh, hr⟩
      simp only [block_add_tofree]
      unfold heap_squeeze
      apply squeezeFuel_sorted
      by_cases hall : ∀ c ∈ head :: rest, c.addr ≤ block.addr
      · rw [if_pos hall]
        refine List.pairwise_cons.mpr ⟨?_, List.pairwise_singleton _ _⟩
        intro y hy
        rw [List.mem_singleton.mp hy]
        exact Nat.lt_of_le_of_ne (hall head (List.mem_cons_self _ _))
          (hd head (List.mem_cons_self _ _))
      · rw [if_neg hall]
        by_cases hlt : block.addr < head.addr
        · rw [if_pos hlt]
          refine List.pairwise_cons.mpr ⟨?_, hs⟩
          intro y hy
          rcases List.mem_cons.mp hy with he | hy2
          · rw [he]; exact hlt
          · exact Nat.lt_trans hlt (hh y hy2)
        · rw [if_neg hlt]
          have hhb : head.addr < block.addr :=
            Nat.lt_of_le_of_ne (Nat.not_lt.mp hlt) (hd head (List.mem_cons_self _ _))
          refine List.pairwise_cons.mpr
            ⟨?_, insertMid_sorted rest block hr
              (fun y hy => hd y (List.mem_cons_of_mem head hy))⟩
          intro y hy
          rcases insertMid_subset rest block y hy with he | hy2
          · rw [he]; exact hhb
          · exact hh y hy2

/-- C2 witness: inserting the highest-addressed block 12288 into the sorted
list [4120, 8192]; the result (the code's splice-after-head) is sorted. -/
theorem c2_add_tofree_preserves_sorted_witness :
    FreeListSorted
      (block_add_tofree [⟨4120, 4152, 100⟩, ⟨8192, 8224, 50⟩] ⟨12288, 12320, 40⟩) :=
  c2_add_tofree_preserves_sorted _ _ (by decide) (by decide)

/-- Core membership fact for C10: a block not address-adjacent to any free
block (and of positive size) is in the free list after its insertion. -/
theorem block_add_tofree_mem (fl : List BlockHead) (nb : BlockHead)
    (hpos : 0 < nb.size)
    (h1 : ∀ f ∈ fl, f.addr + f.size ≠ nb.addr)
    (h2 : ∀ f ∈ fl, nb.addr + nb.size ≠ f.addr) :
    nb ∈ block_add_tofree fl nb := by
  match fl with
  | [] => simp [block_add_tofree]
  | head :: rest =>
      simp only [block_add_tofree]
      by_cases hall : ∀ c ∈ head :: rest, c.addr ≤ nb.addr
      · rw [if_pos hall]
        apply heap_squeeze_mem
        · exact List.mem_cons_of_mem head (List.mem_cons_self nb [])
        · intro x hx
          rcases List.mem_cons.mp hx with he | hx2
          · rw [he]
            exact h1 head (List.mem_cons_self _ _)
          · rw [List.mem_singleton.mp hx2]
            omega
        · intro x hx hxnb
          rcases List.mem_cons.mp hx with he | hx2
          · rw [he]
            exact h2 head (List.mem_cons_self _ _)
          · exact absurd (List.mem_singleton.mp hx2) hxnb
      · rw [if_neg hall]
        by_cases hlt : nb.addr < head.addr
        · rw [if_pos hlt]
          apply heap_squeeze_mem
          · exact List.mem_cons_self _ _
          · intro x hx
            rcases List.mem_cons.mp hx with he | hx2
            · rw [he]; omega
            · exact h1 x hx2
          · intro x hx hxnb
            rcases List.mem_cons.mp hx with he | hx2
            · exact absurd he hxnb
            · exact h2 x hx2
        · rw [if_neg hlt]
          apply heap_squeeze_mem
          · exact List.mem_cons_of_mem head (insertMid_mem rest nb)
          · intro x hx
            rcases List.mem_cons.mp hx with he | hx2
            · rw [he]
              exact h1 head (List.mem_cons_self _ _)
            · rcases insertMid_subset rest nb x hx2 with he | hx3
              · rw [he]; omega
              · exact h1 x (List.mem_cons_of_mem head hx3)
          · intro x hx hxnb
            rcases List.mem_cons.mp hx with he | hx2
            · rw [he]
              exact h2 head (List.mem_cons_self _ _)
            · rcases insertMid_subset rest nb x hx2 with he | hx3
              · exact absurd he hxnb
              · exact h2 x (List.mem_cons_of_mem head hx3)

/-- C10 counterexample: a reachable run in which the claim fails.  From a
fresh 16 MiB heap at 4096, malloc(100) splits off the tail block, a second
malloc takes that whole tail, and freeing the tail leaves the free list
[block at 4252 of size 16777060] — a block ending exactly at the region
end 16781312.  A malloc of 16 MiB then misses and expands; mmap returns
the adjacent address 16781312 and the insertion's coalesce pass absorbs
the new block into the lower free block, so the block returned by
expansion is not a member of the free list at the moment allocate
proceeds; do_malloc then hands out memory lying inside the merged free
block. -/
theorem c10_expand_block_absorbed_by_coalesce :
    (do_malloc (some 4096) none none 100).2 =
      some ⟨16777216, 4096, [⟨4252, 4284, 16777060⟩]⟩ ∧
    do_malloc none none (some ⟨16777216, 4096, [⟨4252, 4284, 16777060⟩]⟩) 16777028 =
      (some ⟨4252, 4284, 16777060⟩, some ⟨16777216, 4096, []⟩) ∧
    do_free (some ⟨16777216, 4096, []⟩) (some ⟨4252, 4284, 16777060⟩) =
      some ⟨16777216, 4096, [⟨4252, 4284, 16777060⟩]⟩ ∧
    (block_findfree (some 16781312) ⟨16777216, 4096, [⟨4252, 4284, 16777060⟩]⟩
        16777248).1 = some ⟨16781312, 16781344, 16777248⟩ ∧
    (⟨16781312, 16781344, 16777248⟩ : BlockHead) ∉
      (block_findfree (some 16781312) ⟨16777216, 4096, [⟨4252, 4284, 16777060⟩]⟩
        16777248).2.first_free ∧
    do_malloc none (some 16781312)
        (some ⟨16777216, 4096, [⟨4252, 4284, 16777060⟩]⟩) 16777216 =
      (some ⟨16781312, 16781344, 16777248⟩,
       some ⟨33554464, 4096, [⟨4252, 4284, 33554308⟩]⟩) := by
  refine ⟨by decide, by decide, by decide, by decide, by decide, by decide⟩

/-- C10 (amended): when the newly mapped region is not address-adjacent to
any existing free block — no free block ends at the region base and the
region does not end at a free block's base — the block returned by heap
expansion is still a member of the free list, with size field
max(n, INIT_SIZE), when allocate goes on to split and remove it. -/
theorem c10_expand_block_in_list_when_not_adjacent (h : HeapHead) (n A : Nat)
    (hA : A ≠ 0)
    (h1 : ∀ f ∈ h.first_free, f.addr + f.size ≠ A)
    (h2 : ∀ f ∈ h.first_free, A + max n START_HEAP_SZ ≠ f.addr) :
    (heap_expand (some A) h n).1 =
      some ⟨A, A + BLOCK_HEAD_SZ, max n START_HEAP_SZ⟩ ∧
    (⟨A, A + BLOCK_HEAD_SZ, max n START_HEAP_SZ⟩ : BlockHead) ∈
      (heap_expand (some A) h n).2.first_free := by
  rw [heap_expand_some h n A hA]
  refine ⟨rfl, ?_⟩
  show _ ∈ block_add_tofree h.first_free _
  apply block_add_tofree_mem
  · show 0 < max n START_HEAP_SZ
    exact Nat.lt_of_lt_of_le (by decide) (Nat.le_max_right n START_HEAP_SZ)
  · exact h1
  · exact h2

/-- C10 amended witness: expanding by a 200-byte request over the free
list [block at 4120 of size 100] with mmap returning the non-adjacent
address 65536: the new 16 MiB block is in the resulting free list. -/
theorem c10_expand_block_in_list_when_not_adjacent_witness :
    (heap_expand (some 65536) ⟨16777216, 4096, [⟨4120, 4152, 100⟩]⟩ 200).1 =
      some ⟨65536, 65568, max 200 START_HEAP_SZ⟩ ∧
    (⟨65536, 65568, max 200 START_HEAP_SZ⟩ : BlockHead) ∈
      (heap_expand (some 65536) ⟨16777216, 4096, [⟨4120, 4152, 100⟩]⟩ 200).2.first_free :=
  c10_expand_block_in_list_when_not_adjacent ⟨16777216, 4096, [⟨4120, 4152, 100⟩]⟩
    200 65536 (by decide) (by decide) (by decide)

/-- C4: zero-allocate(count, size) returns null exactly when count is
zero, size is zero, the mathematical product overflows size_t, or the
underlying allocation fails; in every other case it returns a pointer to
count*size bytes that are all zero after the call. -/
theorem c4_calloc_null_iff_and_zeroed (mmI mmE : Option Nat) (g : Option HeapHead)
    (mem : Nat → Nat) (nmemb size : Nat) :
    ((do_calloc mmI mmE g mem nmemb size).1 = none ↔
       (nmemb = 0 ∨ size = 0 ∨ SIZE_MOD ≤ nmemb * size ∨
        (do_malloc mmI mmE g (nmemb * size)).1 = none)) ∧
    (∀ p, (do_calloc mmI mmE g mem nmemb size).1 = some p →
       ∀ i, i < nmemb * size → (do_calloc mmI mmE g mem nmemb size).2.2 (p + i) = 0) := by
  by_cases h0 : sizet_multiply nmemb size = 0
  · have hz : nmemb = 0 ∨ size = 0 ∨ SIZE_MOD ≤ nmemb * size :=
      (sizet_multiply_eq_zero_iff _ _).mp h0
    have hcal : do_calloc mmI mmE g mem nmemb size = (none, g, mem) := by
      simp only [do_calloc, h0]
      rw [if_neg (by simp)]
    refine ⟨?_, ?_⟩
    · rw [hcal]
      simp only [true_iff]
      tauto
    · intro p hp
      rw [hcal] at hp
      exact absurd hp (by simp)
  · have hval : sizet_multiply nmemb size = nmemb * size := by
      have hc := (sizet_multiply_eq_zero_iff nmemb size).not.mpr
      rcases Nat.lt_or_ge (nmemb * size) SIZE_MOD with hlt | hge
      · have ha : nmemb ≠ 0 := by
          intro he
          exact h0 (by simp [sizet_multiply, he])
        have hb : size ≠ 0 := by
          intro he
          exact h0 (by simp [sizet_multiply, he])
        exact sizet_multiply_pos nmemb size ha hb hlt
      · exact absurd (sizet_multiply_overflow nmemb size hge) h0
    have ha : nmemb ≠ 0 := by
      intro he
      exact h0 (by simp [sizet_multiply, he])
    have hb : size ≠ 0 := by
      intro he
      exact h0 (by simp [sizet_multiply, he])
    have hlt : nmemb * size < SIZE_MOD := by
      rcases Nat.lt_or_ge (nmemb * size) SIZE_MOD with hlt | hge
      · exact hlt
      · exact absurd (sizet_multiply_overflow nmemb size hge) h0
    have hne0 : nmemb * size ≠ 0 := Nat.mul_ne_zero ha hb
    rcases hmm : do_malloc mmI mmE g (nmemb * size) with ⟨ob, g1⟩
    cases ob with
    | none =>
        have hcal : do_calloc mmI mmE g mem nmemb size =
            (none, g1, mem_set mem 0 0 (nmemb * size)) := by
          simp only [do_calloc, hval]
          rw [if_pos (by simp [hne0]), hmm]
        refine ⟨?_, ?_⟩
        · rw [hcal]
          simp
        · intro p hp
          rw [hcal] at hp
          exact absurd hp (by simp)
    | some fb =>
        have hcal : do_calloc mmI mmE g mem nmemb size =
            (some fb.data_addr, g1, mem_set mem fb.data_addr 0 (nmemb * size)) := by
          simp only [do_calloc, hval]
          rw [if_pos (by simp [hne0]), hmm]
        refine ⟨?_, ?_⟩
        · rw [hcal]
          constructor
          · intro hno
            exact absurd hno (by simp)
          · rintro (h | h | h | h)
            · exact absurd h ha
            · exact absurd h hb
            · exact absurd h (Nat.not_le.mpr hlt)
            · exact absurd h (by simp)
        · intro p hp i hi
          rw [hcal] at hp ⊢
          have hpe : p = fb.data_addr := by
            have := congrArg (fun o => o.getD 0) hp
            simpa using this.symm
          rw [hpe]
          exact mem_set_get (nmemb * size) mem fb.data_addr 0 i hi

/-- C4 witness: zero-allocate(2, 3) on a fresh 16 MiB heap with memory
previously holding 7 everywhere: byte 5 of the returned 6-byte payload at
4152 is zero. -/
theorem c4_calloc_null_iff_and_zeroed_witness :
    (do_calloc none none (some ⟨16777216, 4096, [⟨4120, 4152, 16777192⟩]⟩)
      (fun _ => 7) 2 3).2.2 (4152 + 5) = 0 :=
  (c4_calloc_null_iff_and_zeroed none none
      (some ⟨16777216, 4096, [⟨4120, 4152, 16777192⟩]⟩) (fun _ => 7) 2 3).2
    4152 (by decide) 5 (by decide)

end MemMgr
